import Mathlib

/-!
Shallow embedding of the flip-flap flag evaluation engine and its cache
layer (api/src/services/evaluator.ts, api/src/services/cache.service.ts,
api/src/controllers/flags.controller.ts), with theorems settling the
specification claims.

Modelling conventions:
* JS runtime scalars (string | number | boolean) are the inductive `JsVal`;
  numbers are modelled as `Int` (every value exercised by the engine's
  comparisons in this development is integral).
* JS dates are modelled as their parsed epoch instants (`Int`); the current
  instant `new Date()` is passed explicitly as a parameter `now`.
* `undefined` is `Option.none`; JS objects used as string-keyed records are
  association lists or functions `String → Option _`.
-/

namespace FlipFlap

/-- A JS scalar value as it appears in evaluation contexts and operands. -/
inductive JsVal where
  | str (s : String)
  | num (n : Int)
  | bool (b : Bool)
deriving DecidableEq, Repr

/-- JS strict equality `===` restricted to the scalar values above:
equal only when the runtime types coincide and the payloads are equal. -/
def jsStrictEq : JsVal → JsVal → Bool
  | .str a, .str b => a == b
  | .num a, .num b => a == b
  | .bool a, .bool b => a == b
  | _, _ => false

/-- Whether two scalars have the same JS runtime type (`typeof`). -/
def sameType : JsVal → JsVal → Bool
  | .str _, .str _ => true
  | .num _, .num _ => true
  | .bool _, .bool _ => true
  | _, _ => false

/-- `typeof v === "number"`. -/
def isNumber : JsVal → Bool
  | .num _ => true
  | _ => false

/-- An operator operand: `string | number | (string | number)[]` (booleans can
also reach this position at runtime through the schemaless store). -/
inductive Operand where
  | scalar (v : JsVal)
  | arr (vs : List JsVal)
deriving DecidableEq, Repr

/-- Embedding of `matchesOperator(contextValue, operator, operatorValue)`:
the `switch` over the operator name in the evaluator.  `eq`/`neq` use JS
strict (in)equality; the four comparisons require both sides to be numbers;
`oneOf`/`notOneOf` require an array operand and use `Array.includes`
(strict-equality membership); unknown operators yield `false`. -/
def matchesOperator (contextValue : JsVal) (operator : String) (operatorValue : Operand) : Bool :=
  match operator with
  | "eq" =>
    match operatorValue with
    | .scalar v => jsStrictEq contextValue v
    | .arr _ => false
  | "neq" =>
    match operatorValue with
    | .scalar v => !jsStrictEq contextValue v
    | .arr _ => true
  | "gt" =>
    match contextValue, operatorValue with
    | .num a, .scalar (.num b) => decide (a > b)
    | _, _ => false
  | "gte" =>
    match contextValue, operatorValue with
    | .num a, .scalar (.num b) => decide (a ≥ b)
    | _, _ => false
  | "lt" =>
    match contextValue, operatorValue with
    | .num a, .scalar (.num b) => decide (a < b)
    | _, _ => false
  | "lte" =>
    match contextValue, operatorValue with
    | .num a, .scalar (.num b) => decide (a ≤ b)
    | _, _ => false
  | "oneOf" =>
    match operatorValue with
    | .arr vs => vs.any (fun v => jsStrictEq contextValue v)
    | .scalar _ => false
  | "notOneOf" =>
    match operatorValue with
    | .arr vs => !vs.any (fun v => jsStrictEq contextValue v)
    | .scalar _ => false
  | _ => false

/-- The entry list of an `IOperatorExpression` object: operator name paired
with its operand, which may be explicitly `undefined` (`none`). -/
abbrev OperatorExpression : Type := List (String × Option Operand)

/-- An evaluation context: a string-keyed record of JS scalars. -/
abbrev EvalContext : Type := String → Option JsVal

/-- Inner loop of `matchesContextRules` over one field's operator entries.
`hasValid` is the running `hasValidOperator` flag; entries whose operand is
`undefined` are skipped; a defined operand that fails its operator
short-circuits to `false`; when the entries are exhausted the accumulated
`hasValidOperator` flag is the verdict. -/
def opsCheck (contextValue : JsVal) : List (String × Option Operand) → Bool → Bool
  | [], hasValid => hasValid
  | (operator, operatorValue) :: rest, hasValid =>
    match operatorValue with
    | none => opsCheck contextValue rest hasValid
    | some v => matchesOperator contextValue operator v && opsCheck contextValue rest true

/-- Outer loop of `matchesContextRules` over the rule fields: a field absent
from the context fails immediately, otherwise the field's operator entries
are checked with `opsCheck` starting from `hasValidOperator = false`. -/
def rulesCheck (context : EvalContext) : List (String × OperatorExpression) → Bool
  | [] => true
  | (fieldName, operators) :: rest =>
    match context fieldName with
    | none => false
    | some contextValue => opsCheck contextValue operators false && rulesCheck context rest

/-- Embedding of `matchesContextRules(context, contextRules)`:
absent (`undefined`) or empty rule objects pass trivially. -/
def matchesContextRules (context : EvalContext)
    (contextRules : Option (List (String × OperatorExpression))) : Bool :=
  match contextRules with
  | none => true
  | some rules => rulesCheck context rules

/-- Specification-side description of one rule field failing: the field is
absent from the context, or every operand of its rule is undefined (zero
defined operands), or some defined operator is not satisfied by the
context value. -/
def fieldViolated (ctx : EvalContext) (fieldName : String) (ops : OperatorExpression) : Prop :=
  ctx fieldName = none ∨
  (∀ e ∈ ops, e.2 = none) ∨
  (∃ cv, ctx fieldName = some cv ∧
    ∃ e ∈ ops, ∃ v, e.2 = some v ∧ matchesOperator cv e.1 v = false)

/-- Specification-side description of a context-rule failure: some
configured field's rule is violated. -/
def someRuleViolated (ctx : EvalContext) (rules : List (String × OperatorExpression)) : Prop :=
  ∃ r ∈ rules, fieldViolated ctx r.1 r.2

/-- A rollout phase; dates are parsed epoch instants, `endDate` may be
absent (unbounded future). -/
structure IPhase where
  startDate : Int
  endDate : Option Int
  percentage : Int
deriving DecidableEq, Repr

/-- The loop condition of `findActivePhase`:
`now >= startDate && (!endDate || now < endDate)`. -/
def phaseContains (now : Int) (p : IPhase) : Bool :=
  decide (p.startDate ≤ now) &&
    (match p.endDate with
     | none => true
     | some e => decide (now < e))

/-- The `for` loop of `findActivePhase`: first phase containing `now`. -/
def findPhaseLoop (now : Int) : List IPhase → Option IPhase
  | [] => none
  | p :: rest => if phaseContains now p then some p else findPhaseLoop now rest

/-- Embedding of `findActivePhase(phases)` with the current instant made
explicit: `undefined` or empty phase lists yield `null`. -/
def findActivePhase (now : Int) (phases : Option (List IPhase)) : Option IPhase :=
  match phases with
  | none => none
  | some ps => if ps.isEmpty then none else findPhaseLoop now ps

/-! ### MD5 and percentage bucketing

`calculateBucket` delegates to `crypto.createHash("md5")`; the digest
algorithm (RFC 1321) is embedded here executably over byte lists, with all
32-bit words as `Nat` reduced modulo `2^32`. -/

/-- UTF-8 encoding of one character (the bytes `crypto.update` hashes). -/
def charUtf8 (c : Char) : List Nat :=
  let n := c.toNat
  if n < 128 then [n]
  else if n < 2048 then [192 + n / 64, 128 + n % 64]
  else if n < 65536 then [224 + n / 4096, 128 + (n / 64) % 64, 128 + n % 64]
  else [240 + n / 262144, 128 + (n / 4096) % 64, 128 + (n / 64) % 64, 128 + n % 64]

/-- UTF-8 bytes of a string. -/
def utf8Bytes (s : String) : List Nat :=
  s.data.flatMap charUtf8

/-- The 64 MD5 sine-derived constants `K[i]`. -/
def md5K : List Nat :=
  [0xd76aa478, 0xe8c7b756, 0x242070db, 0xc1bdceee,
   0xf57c0faf, 0x4787c62a, 0xa8304613, 0xfd469501,
   0x698098d8, 0x8b44f7af, 0xffff5bb1, 0x895cd7be,
   0x6b901122, 0xfd987193, 0xa679438e, 0x49b40821,
   0xf61e2562, 0xc040b340, 0x265e5a51, 0xe9b6c7aa,
   0xd62f105d, 0x02441453, 0xd8a1e681, 0xe7d3fbc8,
   0x21e1cde6, 0xc33707d6, 0xf4d50d87, 0x455a14ed,
   0xa9e3e905, 0xfcefa3f8, 0x676f02d9, 0x8d2a4c8a,
   0xfffa3942, 0x8771f681, 0x6d9d6122, 0xfde5380c,
   0xa4beea44, 0x4bdecfa9, 0xf6bb4b60, 0xbebfbc70,
   0x289b7ec6, 0xeaa127fa, 0xd4ef3085, 0x04881d05,
   0xd9d4d039, 0xe6db99e5, 0x1fa27cf8, 0xc4ac5665,
   0xf4292244, 0x432aff97, 0xab9423a7, 0xfc93a039,
   0x655b59c3, 0x8f0ccc92, 0xffeff47d, 0x85845dd1,
   0x6fa87e4f, 0xfe2ce6e0, 0xa3014314, 0x4e0811a1,
   0xf7537e82, 0xbd3af235, 0x2ad7d2bb, 0xeb86d391]

/-- The 64 MD5 per-round left-rotation amounts `s[i]`. -/
def md5S : List Nat :=
  [7, 12, 17, 22, 7, 12, 17, 22, 7, 12, 17, 22, 7, 12, 17, 22,
   5, 9, 14, 20, 5, 9, 14, 20, 5, 9, 14, 20, 5, 9, 14, 20,
   4, 11, 16, 23, 4, 11, 16, 23, 4, 11, 16, 23, 4, 11, 16, 23,
   6, 10, 15, 21, 6, 10, 15, 21, 6, 10, 15, 21, 6, 10, 15, 21]

/-- One MD5 round step on the state `(A, B, C, D)`; `M` reads the chunk's
32-bit little-endian message words. -/
def md5Round (M : Nat → Nat) (i : Nat) (st : Nat × Nat × Nat × Nat) : Nat × Nat × Nat × Nat :=
  let (A, B, C, D) := st
  let mask := 4294967295
  let f :=
    if i < 16 then (B &&& C) ||| ((mask ^^^ B) &&& D)
    else if i < 32 then (D &&& B) ||| ((mask ^^^ D) &&& C)
    else if i < 48 then B ^^^ C ^^^ D
    else C ^^^ (B ||| (mask ^^^ D))
  let g :=
    if i < 16 then i % 16
    else if i < 32 then (5 * i + 1) % 16
    else if i < 48 then (3 * i + 5) % 16
    else (7 * i) % 16
  let tmp := (f + A + md5K.getD i 0 + M g) % 4294967296
  let s := md5S.getD i 0
  let rot := ((tmp <<< s) ||| (tmp >>> (32 - s))) % 4294967296
  (D, (B + rot) % 4294967296, B, C)

/-- Process one 64-byte chunk, updating the running digest state. -/
def md5Chunk (st : Nat × Nat × Nat × Nat) (chunk : List Nat) : Nat × Nat × Nat × Nat :=
  let M : Nat → Nat := fun j =>
    chunk.getD (4 * j) 0 + 256 * chunk.getD (4 * j + 1) 0 +
      65536 * chunk.getD (4 * j + 2) 0 + 16777216 * chunk.getD (4 * j + 3) 0
  let (a, b, c, d) := st
  let (A, B, C, D) := (List.range 64).foldl (fun s i => md5Round M i s) (a, b, c, d)
  ((a + A) % 4294967296, (b + B) % 4294967296, (c + C) % 4294967296, (d + D) % 4294967296)

/-- MD5 padding: a `0x80` byte, zeros to 56 mod 64, then the bit length as
eight little-endian bytes. -/
def md5Pad (msg : List Nat) : List Nat :=
  let len := msg.length
  let bitLen := (8 * len) % 18446744073709551616
  let zeros := (119 - len % 64) % 64
  msg ++ 128 :: List.replicate zeros 0 ++
    (List.range 8).map (fun i => bitLen / 256 ^ i % 256)

/-- Split a byte list into 64-byte chunks (structural recursion on a fuel
bound so that the kernel can evaluate it; `fuel = l.length` always
suffices since every step consumes a nonempty list). -/
def splitChunksGo : Nat → List Nat → List (List Nat)
  | 0, _ => []
  | _, [] => []
  | fuel + 1, l => l.take 64 :: splitChunksGo fuel (l.drop 64)

/-- Split a byte list into 64-byte chunks. -/
def splitChunks (l : List Nat) : List (List Nat) :=
  splitChunksGo l.length l

/-- A 32-bit word as four little-endian bytes. -/
def wordLE (x : Nat) : List Nat :=
  [x % 256, x / 256 % 256, x / 65536 % 256, x / 16777216 % 256]

/-- The 16-byte MD5 digest of a byte list. -/
def md5 (msg : List Nat) : List Nat :=
  let init := (0x67452301, 0xefcdab89, 0x98badcfe, 0x10325476)
  let (a, b, c, d) := (splitChunks (md5Pad msg)).foldl md5Chunk init
  wordLE a ++ wordLE b ++ wordLE c ++ wordLE d

/-- One lowercase hex digit. -/
def hexDigit (n : Nat) : Char :=
  if n < 10 then Char.ofNat (48 + n) else Char.ofNat (87 + n)

/-- Lowercase hex rendering of a byte list (two digits per byte). -/
def bytesToHex (bs : List Nat) : List Char :=
  bs.flatMap (fun b => [hexDigit (b / 16 % 16), hexDigit (b % 16)])

/-- `crypto.createHash("md5").update(s).digest("hex")`. -/
def md5Hex (s : String) : String :=
  String.mk (bytesToHex (md5 (utf8Bytes s)))

/-- Numeric value of a hex digit character (`Number.parseInt` semantics on
the characters that actually occur; other characters map to 0). -/
def hexValue (c : Char) : Nat :=
  if 48 ≤ c.toNat ∧ c.toNat ≤ 57 then c.toNat - 48
  else if 97 ≤ c.toNat ∧ c.toNat ≤ 102 then c.toNat - 87
  else if 65 ≤ c.toNat ∧ c.toNat ≤ 70 then c.toNat - 55
  else 0

/-- `Number.parseInt(_, 16)` on a list of hex digit characters. -/
def parseHex (cs : List Char) : Nat :=
  cs.foldl (fun a c => a * 16 + hexValue c) 0

/-- Embedding of `calculateBucket(userId, flagKey)`: first 8 hex characters
of the MD5 digest of `"{userId}:{flagKey}"`, parsed base 16, modulo 100. -/
def calculateBucket (userId : String) (flagKey : String) : Nat :=
  let seed := userId ++ ":" ++ flagKey
  let hash := md5Hex seed
  parseHex (hash.data.take 8) % 100

/-! ### The evaluation engine -/

/-- One environment's configuration (`IEnvironmentConfig`). -/
structure IEnvironmentConfig where
  enabled : Bool
  phases : Option (List IPhase)
  contextRules : Option (List (String × OperatorExpression))
deriving DecidableEq

/-- The evaluation outcome (`EvaluationResult`), with its metadata fields. -/
structure EvaluationResult where
  enabled : Bool
  reason : String
  matchedPhase : Option IPhase
  bucket : Option Nat
deriving DecidableEq, Repr

/-- How a context value renders inside a JS template literal; the engine
reaches this through `context.userId!` when it interpolates the user id
into the bucketing seed, so an absent value renders as `"undefined"`. -/
def jsDisplay : Option JsVal → String
  | none => "undefined"
  | some (.str s) => s
  | some (.num n) => toString n
  | some (.bool b) => cond b "true" "false"

/-- `envConfig.phases && envConfig.phases.length > 0` (an empty array is
truthy in JS, so only the length test matters). -/
def phasesNonempty : Option (List IPhase) → Bool
  | none => false
  | some ps => !ps.isEmpty

/-- Embedding of `evaluateFlag(flagKey, envConfig, context)` with the
current instant `now` passed explicitly.  Gate order as in the source:
kill switch, phase selection, context rules, percentage bucketing. -/
def evaluateFlag (now : Int) (flagKey : String) (envConfig : IEnvironmentConfig)
    (context : EvalContext) : EvaluationResult :=
  if !envConfig.enabled then
    ⟨false, "flag_disabled", none, none⟩
  else
    let activePhase := findActivePhase now envConfig.phases
    if phasesNonempty envConfig.phases && activePhase.isNone then
      ⟨false, "no_active_phase", none, none⟩
    else if !matchesContextRules context envConfig.contextRules then
      ⟨false, "context_rules_not_matched", none, none⟩
    else
      match activePhase with
      | some phase =>
        if phase.percentage < 100 ∧ context "userId" = none then
          ⟨false, "missing_user_id", none, none⟩
        else
          let bucket := calculateBucket (jsDisplay (context "userId")) flagKey
          let enabled := decide ((bucket : Int) < phase.percentage)
          ⟨enabled, if enabled then "percentage_matched" else "percentage_not_matched",
            some phase, some bucket⟩
      | none => ⟨true, "flag_enabled", none, none⟩

/-! ### The cache layer (sequential functional model)

`CacheService` from cache.service.ts, modelled as explicit state passing.
Organization ids are the 24-hex-character `ObjectId` strings; flag
documents carry their identity plus their per-environment configurations. -/

/-- A cached flag document (the fields the cache and controller consult). -/
structure CFlag where
  organizationId : String
  flagKey : String
  environments : List (String × IEnvironmentConfig)
deriving DecidableEq

/-- The cache's mutable state: the entry map (modelled as an association
list where the most recent insertion for a key shadows older ones) and the
last-refresh timestamp. -/
structure CacheState where
  cache : List (String × CFlag)
  lastRefreshTime : Int

/-- `getCacheKey(organizationId, flagKey)`. -/
def getCacheKey (organizationId : String) (flagKey : String) : String :=
  organizationId ++ ":" ++ flagKey

/-- `Map.get` on the modelled entry list. -/
def cacheLookup (c : List (String × CFlag)) (k : String) : Option CFlag :=
  (c.find? (fun e => e.1 == k)).map (fun e => e.2)

/-- `Map.set`: insert or overwrite one entry. -/
def mapSet (c : List (String × CFlag)) (k : String) (v : CFlag) : List (String × CFlag) :=
  (k, v) :: c

/-- `loadAllFlags()` after a successful `Flag.find({})` returning `store`:
clear the map, insert every flag under its composite key, stamp the
refresh time. -/
def loadAllFlags (store : List CFlag) (now : Int) (_s : CacheState) : CacheState :=
  { cache := store.foldl (fun c fl => mapSet c (getCacheKey fl.organizationId fl.flagKey) fl) []
    lastRefreshTime := now }

/-- `Flag.findOne({organizationId, flagKey})` on the modelled store. -/
def storeFindOne (store : List CFlag) (orgId : String) (flagKey : String) : Option CFlag :=
  store.find? (fun f => f.organizationId == orgId && f.flagKey == flagKey)

/-- The cache TTL (60 seconds, in milliseconds). -/
def TTL_MS : Int := 60000

/-- `checkAndRefresh()`: refresh when the time since the last successful
load exceeds the TTL (sequential view, so the guard flag is clear). -/
def checkAndRefresh (store : List CFlag) (now : Int) (s : CacheState) : CacheState :=
  if now - s.lastRefreshTime > TTL_MS then loadAllFlags store now s else s

/-- `get(organizationId, flagKey)`: TTL check and possible full refresh,
then composite-key lookup, then point fetch with backfill on a miss. -/
def cacheGet (store : List CFlag) (now : Int) (s : CacheState) (orgId : String)
    (flagKey : String) : Option CFlag × CacheState :=
  let s1 := checkAndRefresh store now s
  let cacheKey := getCacheKey orgId flagKey
  match cacheLookup s1.cache cacheKey with
  | some fl => (some fl, s1)
  | none =>
    match storeFindOne store orgId flagKey with
    | some fl => (some fl, { s1 with cache := mapSet s1.cache cacheKey fl })
    | none => (none, s1)

/-- `set(organizationId, flagKey, flag)`. -/
def cacheSet (orgId : String) (flagKey : String) (fl : CFlag) (s : CacheState) : CacheState :=
  { s with cache := mapSet s.cache (getCacheKey orgId flagKey) fl }

/-- `delete(organizationId, flagKey)` (state part). -/
def cacheDelete (orgId : String) (flagKey : String) (s : CacheState) : CacheState :=
  { s with cache := s.cache.filter (fun e => !(e.1 == getCacheKey orgId flagKey)) }

/-- The cache operations a run of the service performs.  `opSet` records a
write-path `set` call, which the controllers always issue with the flag's
own identity (`cacheService.set(organizationId, flag.flagKey, flag)`). -/
inductive CacheOp where
  | load (store : List CFlag) (now : Int)
  | opGet (store : List CFlag) (now : Int) (orgId : String) (flagKey : String)
  | opSet (fl : CFlag)
  | opDelete (orgId : String) (flagKey : String)

/-- State transition of one cache operation. -/
def applyOp (s : CacheState) : CacheOp → CacheState
  | .load store now => loadAllFlags store now s
  | .opGet store now orgId flagKey => (cacheGet store now s orgId flagKey).2
  | .opSet fl => cacheSet fl.organizationId fl.flagKey fl s
  | .opDelete orgId flagKey => cacheDelete orgId flagKey s

/-- Run a sequence of cache operations from a state. -/
def runOps (s : CacheState) (ops : List CacheOp) : CacheState :=
  ops.foldl applyOp s

/-- The freshly constructed cache: empty map, epoch timestamp. -/
def initialCacheState : CacheState := ⟨[], 0⟩

/-- `flag.environments[environment]`. -/
def envLookup (env : String) (envs : List (String × IEnvironmentConfig)) :
    Option IEnvironmentConfig :=
  (envs.find? (fun e => e.1 == env)).map (fun e => e.2)

/-- The evaluation path of `evaluateFlags` in flags.controller.ts: fetch
through the cache, resolve the environment config, delegate to the
engine; misses resolve to `flag_not_found` / `environment_not_configured`. -/
def evaluateFlagsController (store : List CFlag) (now : Int) (s : CacheState)
    (orgId : String) (env : String) (flagKey : String) (context : EvalContext) :
    EvaluationResult × CacheState :=
  match cacheGet store now s orgId flagKey with
  | (none, s1) => (⟨false, "flag_not_found", none, none⟩, s1)
  | (some fl, s1) =>
    match envLookup env fl.environments with
    | none => (⟨false, "environment_not_configured", none, none⟩, s1)
    | some envConfig => (evaluateFlag now flagKey envConfig context, s1)

/-! ### Multi-tenant isolation vocabulary

Organization ids are MongoDB `ObjectId.toString()` values: 24 hex
characters, in particular colon-free, which makes the composite cache key
`"{organizationId}:{flagKey}"` injective in the pair. -/

/-- An organization id as produced by `ObjectId.toString()` contains no
colon (it is lowercase hex). -/
def validOrg (o : String) : Prop := ':' ∉ o.data

instance (o : String) : Decidable (validOrg o) := by
  unfold validOrg; infer_instance

/-- A flag document whose organization id is a valid `ObjectId` string. -/
def validFlag (fl : CFlag) : Prop := validOrg fl.organizationId

/-- Every document in the store has a valid organization id. -/
def validStore (store : List CFlag) : Prop := ∀ fl ∈ store, validFlag fl

/-- Well-formedness of the operations the service actually performs:
stores hold valid documents, and the org ids handed to `get`/`delete`
come from authentication (they are `ObjectId` strings). -/
def validOp : CacheOp → Prop
  | .load store _ => validStore store
  | .opGet store _ orgId _ => validStore store ∧ validOrg orgId
  | .opSet fl => validFlag fl
  | .opDelete orgId _ => validOrg orgId

/-- Cache-map well-formedness: every entry is stored under the composite
key of the document it holds, and that document's org id is valid. -/
def wfCache (c : List (String × CFlag)) : Prop :=
  ∀ e ∈ c, e.1 = getCacheKey e.2.organizationId e.2.flagKey ∧ validOrg e.2.organizationId

/-- Two cache maps agree on everything organization `A` can observe. -/
def cachesAgreeOn (A : String) (c1 c2 : List (String × CFlag)) : Prop :=
  ∀ k, cacheLookup c1 (getCacheKey A k) = cacheLookup c2 (getCacheKey A k)

/-- Two stores agree on organization `A`'s documents (they may differ
arbitrarily on other organizations' flags). -/
def storesAgreeOn (A : String) (S1 S2 : List CFlag) : Prop :=
  S1.filter (fun f => f.organizationId == A) = S2.filter (fun f => f.organizationId == A)

/-- Two cache states agree on organization `A`'s observable part. -/
def statesAgreeOn (A : String) (s1 s2 : CacheState) : Prop :=
  cachesAgreeOn A s1.cache s2.cache ∧ s1.lastRefreshTime = s2.lastRefreshTime

/-- Two operations that differ at most in other organizations' flags:
loads draw on stores that agree on `A`, gets are the same query against
such stores, and writes either coincide or both touch organizations
other than `A`. -/
def opsAgreeOn (A : String) : CacheOp → CacheOp → Prop
  | .load S1 n1, .load S2 n2 => storesAgreeOn A S1 S2 ∧ n1 = n2
  | .opGet S1 n1 o1 k1, .opGet S2 n2 o2 k2 =>
    storesAgreeOn A S1 S2 ∧ n1 = n2 ∧ o1 = o2 ∧ k1 = k2
  | .opSet f1, .opSet f2 => f1 = f2 ∨ (f1.organizationId ≠ A ∧ f2.organizationId ≠ A)
  | .opDelete o1 k1, .opDelete o2 k2 => (o1 = o2 ∧ k1 = k2) ∨ (o1 ≠ A ∧ o2 ≠ A)
  | _, _ => False

/-! ### The cache layer under store failure

In `loadAllFlags` the store query `Flag.find({})` is awaited **before**
`cache.clear()` and before the timestamp is stamped; the `catch` block only
logs and rethrows.  So when the query fails, no mutation has happened: the
returned state is the input state, paired with the propagated error. -/

/-- `loadAllFlags()` with the store query's outcome made explicit: on
`error` the exception propagates and the state is untouched. -/
def loadAllFlagsE (store : Except String (List CFlag)) (now : Int) (s : CacheState) :
    Option String × CacheState :=
  match store with
  | .error e => (some e, s)
  | .ok flags => (none, loadAllFlags flags now s)

/-- `refresh()` (sequential view): delegates to `loadAllFlags`; the
`finally` block only restores the guard flag, so the error and the state
pass through unchanged. -/
def refreshE (store : Except String (List CFlag)) (now : Int) (s : CacheState) :
    Option String × CacheState :=
  loadAllFlagsE store now s

/-- `get` through `checkAndRefresh`: a TTL-expired get awaits the refresh,
so a store failure there propagates out of `get` before any lookup; on the
non-failing paths the lookup and point-fetch fallback proceed as in
`cacheGet`. -/
def cacheGetE (store : Except String (List CFlag)) (now : Int) (s : CacheState)
    (orgId : String) (flagKey : String) : Option String × Option CFlag × CacheState :=
  match (if now - s.lastRefreshTime > TTL_MS then refreshE store now s else (none, s)) with
  | (some e, s1) => (some e, none, s1)
  | (none, s1) =>
    let cacheKey := getCacheKey orgId flagKey
    match cacheLookup s1.cache cacheKey with
    | some fl => (none, some fl, s1)
    | none =>
      match store with
      | .error e => (some e, none, s1)
      | .ok flags =>
        match storeFindOne flags orgId flagKey with
        | some fl => (none, some fl, { s1 with cache := mapSet s1.cache cacheKey fl })
        | none => (none, none, s1)

/-! ### `refresh()` under concurrent invocation

The JS event loop runs each `refresh()` invocation atomically from its call
up to the `await` inside `loadAllFlags` (the store query), and the query's
resolution — the rest of `loadAllFlags`, the `finally` block and the return
to the awaiting caller — atomically as well.  A run is therefore an
interleaving of two atomic event kinds: a caller invoking `refresh()`, and
the in-flight store query resolving. -/

/-- Scheduler events: caller `id` invokes `refresh()`, or the in-flight
load's store query resolves. -/
inductive REvent where
  | call (id : Nat)
  | finishLoad

/-- Observable state of the refresh machinery.  `returns` records, for each
caller of `refresh()` that has returned, the number of completed loads at
the moment it returned. -/
structure RState where
  isRefreshing : Bool
  inFlight : Option Nat
  loadsStarted : Nat
  loadsCompleted : Nat
  returns : List (Nat × Nat)
deriving DecidableEq, Repr

/-- One atomic step.  `call i` with the guard flag set returns immediately
(the early `return` in `refresh()`); with the flag clear it sets the flag
and starts a load, leaving caller `i` awaiting it.  `finishLoad` completes
the load, clears the flag in the `finally` block and returns the awaiting
caller. -/
def rstep (s : RState) : REvent → RState
  | .call i =>
    if s.isRefreshing then
      { s with returns := (i, s.loadsCompleted) :: s.returns }
    else
      { s with isRefreshing := true, inFlight := some i, loadsStarted := s.loadsStarted + 1 }
  | .finishLoad =>
    match s.inFlight with
    | some i =>
      { s with
          isRefreshing := false
          inFlight := none
          loadsCompleted := s.loadsCompleted + 1
          returns := (i, s.loadsCompleted + 1) :: s.returns }
    | none => s

/-- Initial refresh state (constructor of `CacheService`). -/
def rinit : RState := ⟨false, none, 0, 0, []⟩

/-- Run a schedule of refresh events. -/
def runRefresh (es : List REvent) : RState :=
  es.foldl rstep rinit

/-- The behaviour the claim asserts: every returned `refresh()` caller saw
at least one completed load by the time it returned. -/
def allCallersObserveALoad (es : List REvent) : Prop :=
  ∀ p ∈ (runRefresh es).returns, 1 ≤ p.2

instance (es : List REvent) : Decidable (allCallersObserveALoad es) := by
  unfold allCallersObserveALoad; infer_instance

/-! ## Supporting lemmas -/

set_option maxRecDepth 8192

/-- RFC 1321 test vector: the embedded MD5 agrees on the empty message. -/
theorem md5Hex_rfc1321_empty : md5Hex "" = "d41d8cd98f00b204e9800998ecf8427e" := by
  decide

/-- RFC 1321 test vector: the embedded MD5 agrees on `"abc"`. -/
theorem md5Hex_rfc1321_abc : md5Hex "abc" = "900150983cd24fb0d6963f7d28e17f72" := by
  decide

theorem hexValue_lt_16 (c : Char) : hexValue c < 16 := by
  unfold hexValue
  repeat' split
  all_goals omega

theorem parseHex_foldl_lt (cs : List Char) :
    ∀ a : Nat, List.foldl (fun a c => a * 16 + hexValue c) a cs < (a + 1) * 16 ^ cs.length := by
  induction cs with
  | nil => intro a; simp
  | cons c t ih =>
    intro a
    have h1 := ih (a * 16 + hexValue c)
    have h2 : a * 16 + hexValue c + 1 ≤ (a + 1) * 16 := by
      have := hexValue_lt_16 c
      omega
    calc List.foldl (fun a c => a * 16 + hexValue c) (a * 16 + hexValue c) t
        < (a * 16 + hexValue c + 1) * 16 ^ t.length := h1
      _ ≤ ((a + 1) * 16) * 16 ^ t.length := Nat.mul_le_mul_right _ h2
      _ = (a + 1) * 16 ^ (t.length + 1) := by ring

theorem parseHex_lt (cs : List Char) : parseHex cs < 16 ^ cs.length := by
  simpa [parseHex] using parseHex_foldl_lt cs 0

/-- Any bucket value is below 100. -/
theorem calculateBucket_lt_100 (u k : String) : calculateBucket u k < 100 :=
  Nat.mod_lt _ (by norm_num)

/-- Strict equality only relates values of the same runtime type. -/
theorem jsStrictEq_sameType (a b : JsVal) (h : sameType a b = false) :
    jsStrictEq a b = false := by
  cases a <;> cases b <;> simp_all [sameType, jsStrictEq]

/-- The single-flight invariant of the refresh machinery: the loads
started and completed differ by the guard flag, which mirrors the
in-flight marker. -/
def refreshInv (s : RState) : Prop :=
  (s.isRefreshing = false → s.loadsStarted = s.loadsCompleted) ∧
  (s.isRefreshing = true → s.loadsStarted = s.loadsCompleted + 1) ∧
  (s.isRefreshing = true ↔ s.inFlight.isSome = true)

theorem refreshInv_rinit : refreshInv rinit := by
  simp [refreshInv, rinit]

theorem refreshInv_rstep (s : RState) (e : REvent) (h : refreshInv s) :
    refreshInv (rstep s e) := by
  obtain ⟨h1, h2, h3⟩ := h
  cases e with
  | call i =>
    by_cases hr : s.isRefreshing <;>
      simp_all [rstep, refreshInv]
  | finishLoad =>
    cases hf : s.inFlight with
    | none =>
      have : s.isRefreshing = false := by
        by_contra hcon
        have := h3.mp (by revert hcon; cases s.isRefreshing <;> simp)
        simp [hf] at this
      simp_all [rstep, refreshInv]
    | some i =>
      have hr : s.isRefreshing = true := h3.mpr (by simp [hf])
      simp_all [rstep, refreshInv]

theorem refreshInv_foldl (es : List REvent) :
    ∀ s : RState, refreshInv s → refreshInv (es.foldl rstep s) := by
  induction es with
  | nil => intro s h; exact h
  | cons e t ih => intro s h; exact ih _ (refreshInv_rstep s e h)

theorem refreshInv_runRefresh (es : List REvent) : refreshInv (runRefresh es) :=
  refreshInv_foldl es rinit refreshInv_rinit

/-! ## Claim theorems -/

/-- C1: whenever the environment configuration's `enabled` field is false,
`evaluateFlag` returns `enabled: false` with reason `flag_disabled`,
whatever the phases, context rules, or context contents — no other gate is
consulted. -/
theorem evaluateFlag_kill_switch (now : Int) (flagKey : String)
    (envConfig : IEnvironmentConfig) (context : EvalContext)
    (h : envConfig.enabled = false) :
    evaluateFlag now flagKey envConfig context =
      ⟨false, "flag_disabled", none, none⟩ := by
  simp [evaluateFlag, h]

/-- C1 witness: a disabled configuration carrying both phases and context
rules, evaluated against an empty context, yields `flag_disabled`. -/
theorem evaluateFlag_kill_switch_witness :
    (IEnvironmentConfig.mk false (some [⟨0, none, 100⟩])
        (some [("location", [("eq", some (Operand.scalar (JsVal.str "US")))])])).enabled
      = false ∧
    evaluateFlag 5 "k"
        (IEnvironmentConfig.mk false (some [⟨0, none, 100⟩])
          (some [("location", [("eq", some (Operand.scalar (JsVal.str "US")))])]))
        (fun _ => none) =
      ⟨false, "flag_disabled", none, none⟩ :=
  ⟨rfl, evaluateFlag_kill_switch 5 "k" _ _ rfl⟩

/-- C2 counterexample: in the schedule where caller 1 starts a load, caller
2 invokes `refresh()` while that load is in flight, and the load then
resolves, caller 2 returns having observed zero completed loads — the
guard flag makes late arrivals return early instead of awaiting. -/
theorem refresh_coalescing_counterexample :
    ¬ allCallersObserveALoad [REvent.call 1, REvent.call 2, REvent.finishLoad] := by
  decide

/-- C2 amended: concurrent `refresh()` invocations trigger at most one
in-flight `loadAllFlags()` (started loads never exceed completed loads by
more than one), but a caller arriving while a load is in flight returns
immediately: it starts no new load and does not await the in-flight one,
returning with whatever load count is current. -/
theorem refresh_single_flight (es : List REvent) (i : Nat) :
    ((runRefresh es).loadsCompleted ≤ (runRefresh es).loadsStarted ∧
      (runRefresh es).loadsStarted ≤ (runRefresh es).loadsCompleted + 1) ∧
    ((runRefresh es).isRefreshing = true →
      runRefresh (es ++ [REvent.call i]) =
        { runRefresh es with
            returns := (i, (runRefresh es).loadsCompleted) :: (runRefresh es).returns }) := by
  obtain ⟨h1, h2, h3⟩ := refreshInv_runRefresh es
  constructor
  · cases hr : (runRefresh es).isRefreshing
    · have := h1 hr; omega
    · have := h2 hr; omega
  · intro hr
    have hstep : runRefresh (es ++ [REvent.call i]) = rstep (runRefresh es) (REvent.call i) := by
      simp [runRefresh, List.foldl_append]
    rw [hstep]
    simp [rstep, hr]

/-- C2 amended, witness: after caller 1 has started a load, a second call
returns at once with zero loads observed, leaving the trace state
otherwise untouched. -/
theorem refresh_single_flight_witness :
    ((runRefresh [REvent.call 1]).loadsCompleted ≤ (runRefresh [REvent.call 1]).loadsStarted ∧
      (runRefresh [REvent.call 1]).loadsStarted ≤ (runRefresh [REvent.call 1]).loadsCompleted + 1) ∧
    runRefresh ([REvent.call 1] ++ [REvent.call 2]) =
      { runRefresh [REvent.call 1] with
          returns := (2, (runRefresh [REvent.call 1]).loadsCompleted) ::
            (runRefresh [REvent.call 1]).returns } :=
  ⟨(refresh_single_flight [REvent.call 1] 2).1,
    (refresh_single_flight [REvent.call 1] 2).2 (by decide)⟩

/-- C3 counterexample: `neq` applied to the string `"5"` with the numeric
operand `5` — a scalar type mismatch — returns `true` (the rule matches),
not `false` as the claim requires of every operator. -/
theorem matchesOperator_mismatch_counterexample :
    ¬ matchesOperator (JsVal.str "5") "neq" (Operand.scalar (JsVal.num 5)) = false := by
  decide

/-- C3 amended: a type-mismatched context value makes `eq`, `gt`, `gte`,
`lt`, `lte` and `oneOf` return `false` without raising (comparisons also
need both sides numeric, membership operators need an array operand), but
the negated operators treat a mismatch as a match: `neq` returns `true`
whenever the scalar types differ (and on any array operand), and
`notOneOf` with an array operand returns `true` when the context value's
type matches no element. -/
theorem matchesOperator_type_mismatch (cv v : JsVal) (vs : List JsVal) :
    (sameType cv v = false →
      matchesOperator cv "eq" (Operand.scalar v) = false ∧
      matchesOperator cv "neq" (Operand.scalar v) = true) ∧
    (isNumber cv = false ∨ isNumber v = false →
      matchesOperator cv "gt" (Operand.scalar v) = false ∧
      matchesOperator cv "gte" (Operand.scalar v) = false ∧
      matchesOperator cv "lt" (Operand.scalar v) = false ∧
      matchesOperator cv "lte" (Operand.scalar v) = false) ∧
    (matchesOperator cv "eq" (Operand.arr vs) = false ∧
      matchesOperator cv "neq" (Operand.arr vs) = true ∧
      matchesOperator cv "gt" (Operand.arr vs) = false ∧
      matchesOperator cv "gte" (Operand.arr vs) = false ∧
      matchesOperator cv "lt" (Operand.arr vs) = false ∧
      matchesOperator cv "lte" (Operand.arr vs) = false ∧
      matchesOperator cv "oneOf" (Operand.scalar v) = false ∧
      matchesOperator cv "notOneOf" (Operand.scalar v) = false) ∧
    ((∀ w ∈ vs, sameType cv w = false) →
      matchesOperator cv "oneOf" (Operand.arr vs) = false ∧
      matchesOperator cv "notOneOf" (Operand.arr vs) = true) := by
  refine ⟨?_, ?_, ?_, ?_⟩
  · intro h
    have := jsStrictEq_sameType cv v h
    simp [matchesOperator, this]
  · intro h
    cases cv <;> cases v <;> simp_all [matchesOperator, isNumber]
  · cases cv <;> simp [matchesOperator]
  · intro h
    have hany : vs.any (fun w => jsStrictEq cv w) = false := by
      rw [List.any_eq_false]
      intro w hw
      simp [jsStrictEq_sameType cv w (h w hw)]
    simp [matchesOperator, hany]

/-- C3 amended, witness: string-vs-number mismatches at concrete inputs —
`eq` and the comparisons refuse, `neq` and `notOneOf` match. -/
theorem matchesOperator_type_mismatch_witness :
    matchesOperator (JsVal.str "5") "eq" (Operand.scalar (JsVal.num 5)) = false ∧
    matchesOperator (JsVal.str "5") "neq" (Operand.scalar (JsVal.num 5)) = true ∧
    matchesOperator (JsVal.str "x") "gt" (Operand.scalar (JsVal.num 5)) = false ∧
    matchesOperator (JsVal.str "x") "oneOf" (Operand.arr [JsVal.num 1]) = false ∧
    matchesOperator (JsVal.str "x") "notOneOf" (Operand.arr [JsVal.num 1]) = true := by
  have h5 := matchesOperator_type_mismatch (JsVal.str "5") (JsVal.num 5) []
  have hx := matchesOperator_type_mismatch (JsVal.str "x") (JsVal.num 5) [JsVal.num 1]
  exact ⟨(h5.1 (by decide)).1, (h5.1 (by decide)).2,
    (hx.2.1 (Or.inl (by decide))).1,
    (hx.2.2.2 (by decide)).1, (hx.2.2.2 (by decide)).2⟩

/-- C4: `calculateBucket(userId, flagKey)` is the first 8 hex characters of
the MD5 digest of `"{userId}:{flagKey}"` read as a 32-bit unsigned integer
(the parsed value is below `2^32`), reduced modulo 100, hence always in
`[0, 100)`; determinism is inherent: it is a pure function of the pair. -/
theorem calculateBucket_md5_spec (u k : String) :
    calculateBucket u k = parseHex ((md5Hex (u ++ ":" ++ k)).data.take 8) % 100 ∧
    parseHex ((md5Hex (u ++ ":" ++ k)).data.take 8) < 4294967296 ∧
    calculateBucket u k < 100 := by
  refine ⟨rfl, ?_, calculateBucket_lt_100 u k⟩
  have h := parseHex_lt ((md5Hex (u ++ ":" ++ k)).data.take 8)
  have hlen : ((md5Hex (u ++ ":" ++ k)).data.take 8).length ≤ 8 := by
    simp [List.length_take]
  have hpow : (16 : Nat) ^ ((md5Hex (u ++ ":" ++ k)).data.take 8).length ≤ 16 ^ 8 :=
    Nat.pow_le_pow_right (by norm_num) hlen
  have : (16 : Nat) ^ 8 = 4294967296 := by norm_num
  omega

/-- C8: when the store query inside `loadAllFlags` fails, the error
propagates out of `loadAllFlags`, `refresh` and a TTL-expired `get`, and
the cache state is untouched: every cached entry still resolves as before
and the last-refresh timestamp is not advanced. -/
theorem loadAllFlags_failure_preserves_cache (e : String) (now : Int) (s : CacheState)
    (orgId flagKey : String) (hTtl : now - s.lastRefreshTime > TTL_MS) :
    loadAllFlagsE (Except.error e) now s = (some e, s) ∧
    refreshE (Except.error e) now s = (some e, s) ∧
    cacheGetE (Except.error e) now s orgId flagKey = (some e, none, s) ∧
    (∀ k, cacheLookup (refreshE (Except.error e) now s).2.cache k = cacheLookup s.cache k) ∧
    (refreshE (Except.error e) now s).2.lastRefreshTime = s.lastRefreshTime := by
  refine ⟨rfl, rfl, ?_, fun k => rfl, rfl⟩
  simp [cacheGetE, refreshE, loadAllFlagsE, hTtl]

/-- C8 witness: a state holding one cached entry, refreshed 70 seconds
later against a failing store, keeps its entry and timestamp. -/
theorem loadAllFlags_failure_preserves_cache_witness :
    70000 - (CacheState.mk [("a:k", CFlag.mk "a" "k" [])] 0).lastRefreshTime > TTL_MS ∧
    cacheGetE (Except.error "boom") 70000 (CacheState.mk [("a:k", CFlag.mk "a" "k" [])] 0)
        "a" "k" =
      (some "boom", none, CacheState.mk [("a:k", CFlag.mk "a" "k" [])] 0) :=
  ⟨by decide,
    (loadAllFlags_failure_preserves_cache "boom" 70000
      (CacheState.mk [("a:k", CFlag.mk "a" "k" [])] 0) "a" "k" (by decide)).2.2.1⟩

theorem findPhaseLoop_eq_find (now : Int) (ps : List IPhase) :
    findPhaseLoop now ps = ps.find? (phaseContains now) := by
  induction ps with
  | nil => rfl
  | cons p t ih =>
    cases h : phaseContains now p <;>
      simp [findPhaseLoop, h, ih, List.find?_cons]

/-- C6: with non-empty phases, `findActivePhase` picks the first phase in
list order whose half-open interval `[startDate, endDate)` contains the
current instant — inclusive start, exclusive end, absent end treated as
unbounded future — and when no phase contains the instant, `evaluateFlag`
answers `enabled: false` with reason `no_active_phase`. -/
theorem findActivePhase_first_containing (now : Int) (flagKey : String)
    (cfg : IEnvironmentConfig) (ctx : EvalContext) (ps : List IPhase)
    (hps : cfg.phases = some ps) (hne : ps ≠ []) :
    findActivePhase now cfg.phases = ps.find? (phaseContains now) ∧
    (∀ p : IPhase, phaseContains now p = true ↔
      (p.startDate ≤ now ∧ ∀ e, p.endDate = some e → now < e)) ∧
    (∀ s pct, phaseContains now (IPhase.mk s (some now) pct) = false) ∧
    (∀ pct, phaseContains now (IPhase.mk now none pct) = true) ∧
    (cfg.enabled = true → ps.find? (phaseContains now) = none →
      evaluateFlag now flagKey cfg ctx = ⟨false, "no_active_phase", none, none⟩) := by
  have hfind : findActivePhase now cfg.phases = ps.find? (phaseContains now) := by
    rw [hps]
    show (if ps.isEmpty = true then none else findPhaseLoop now ps) = _
    rw [if_neg (by simp [hne]), findPhaseLoop_eq_find]
  refine ⟨hfind, ?_, ?_, ?_, ?_⟩
  · intro p
    cases hp : p.endDate <;> simp [phaseContains, hp]
  · intro s pct; simp [phaseContains]
  · intro pct; simp [phaseContains]
  · intro hen hnone
    have hfa : findActivePhase now cfg.phases = none := hfind.trans hnone
    have hnonempty : phasesNonempty cfg.phases = true := by
      rw [hps]; cases ps with
      | nil => exact absurd rfl hne
      | cons a t => simp [phasesNonempty]
    simp [evaluateFlag, hen, hfa, hnonempty]

/-- C6 witness: a single already-expired phase — the interval check fails,
`find?` yields none, and the evaluator reports `no_active_phase`. -/
theorem findActivePhase_first_containing_witness :
    findActivePhase 10 (IEnvironmentConfig.mk true (some [IPhase.mk 0 (some 5) 50]) none).phases =
      List.find? (phaseContains 10) [IPhase.mk 0 (some 5) 50] ∧
    (∀ p : IPhase, phaseContains 10 p = true ↔
      (p.startDate ≤ 10 ∧ ∀ e, p.endDate = some e → (10 : Int) < e)) ∧
    (∀ s pct, phaseContains 10 (IPhase.mk s (some 10) pct) = false) ∧
    (∀ pct, phaseContains 10 (IPhase.mk 10 none pct) = true) ∧
    ((IEnvironmentConfig.mk true (some [IPhase.mk 0 (some 5) 50]) none).enabled = true →
      List.find? (phaseContains 10) [IPhase.mk 0 (some 5) 50] = none →
      evaluateFlag 10 "k" (IEnvironmentConfig.mk true (some [IPhase.mk 0 (some 5) 50]) none)
          (fun _ => none) =
        ⟨false, "no_active_phase", none, none⟩) :=
  findActivePhase_first_containing 10 "k"
    (IEnvironmentConfig.mk true (some [IPhase.mk 0 (some 5) 50]) none)
    (fun _ => none) [IPhase.mk 0 (some 5) 50] rfl (by decide)

theorem opsCheck_eq_true_iff (cv : JsVal) (ops : List (String × Option Operand)) (b : Bool) :
    opsCheck cv ops b = true ↔
      ((b = true ∨ ∃ e ∈ ops, e.2.isSome = true) ∧
        ∀ e ∈ ops, ∀ v, e.2 = some v → matchesOperator cv e.1 v = true) := by
  induction ops generalizing b with
  | nil => simp [opsCheck]
  | cons hd t ih =>
    obtain ⟨op, oval⟩ := hd
    cases oval with
    | none =>
      simp only [opsCheck, ih]
      constructor
      · rintro ⟨h1, h2⟩
        refine ⟨?_, ?_⟩
        · rcases h1 with h1 | ⟨e, he, hs⟩
          · exact Or.inl h1
          · exact Or.inr ⟨e, List.mem_cons_of_mem _ he, hs⟩
        · intro e he v hv
          rcases List.mem_cons.mp he with rfl | he'
          · simp at hv
          · exact h2 e he' v hv
      · rintro ⟨h1, h2⟩
        refine ⟨?_, ?_⟩
        · rcases h1 with h1 | ⟨e, he, hs⟩
          · exact Or.inl h1
          · rcases List.mem_cons.mp he with rfl | he'
            · simp at hs
            · exact Or.inr ⟨e, he', hs⟩
        · intro e he v hv
          exact h2 e (List.mem_cons_of_mem _ he) v hv
    | some v =>
      simp only [opsCheck, Bool.and_eq_true, ih]
      constructor
      · rintro ⟨hm, h1, h2⟩
        refine ⟨Or.inr ⟨(op, some v), List.mem_cons_self _ _, rfl⟩, ?_⟩
        intro e he w hw
        rcases List.mem_cons.mp he with rfl | he'
        · cases hw; exact hm
        · exact h2 e he' w hw
      · rintro ⟨h1, h2⟩
        refine ⟨h2 (op, some v) (List.mem_cons_self _ _) v rfl, Or.inl trivial, ?_⟩
        intro e he w hw
        exact h2 e (List.mem_cons_of_mem _ he) w hw

theorem opsCheck_false_iff_fieldViolated (ctx : EvalContext) (f : String) (cv : JsVal)
    (hctx : ctx f = some cv) (ops : OperatorExpression) :
    opsCheck cv ops false = false ↔ fieldViolated ctx f ops := by
  rw [← Bool.not_eq_true, opsCheck_eq_true_iff]
  unfold fieldViolated
  rw [hctx]
  constructor
  · intro h
    by_cases hd : ∃ e ∈ ops, e.2.isSome = true
    · right; right
      refine ⟨cv, rfl, ?_⟩
      by_contra hno
      push_neg at hno
      apply h
      refine ⟨Or.inr hd, ?_⟩
      intro e he w hw
      have := hno e he w hw
      revert this
      cases matchesOperator cv e.1 w <;> simp
    · right; left
      intro e he
      by_contra hne
      exact hd ⟨e, he, by revert hne; cases e.2 <;> simp⟩
  · rintro (h | h | ⟨cv', hcv', e, he, w, hw, hfail⟩) hcontra
    · simp at h
    · rcases hcontra.1 with h1 | ⟨e, he, hs⟩
      · simp at h1
      · rw [h e he] at hs; simp at hs
    · obtain rfl : cv' = cv := by
        injection hcv' with h
        exact h.symm
      exact absurd (hcontra.2 e he w hw) (by simp [hfail])

theorem rulesCheck_eq_false_iff (ctx : EvalContext) (rules : List (String × OperatorExpression)) :
    rulesCheck ctx rules = false ↔ someRuleViolated ctx rules := by
  induction rules with
  | nil => simp [rulesCheck, someRuleViolated]
  | cons hd t ih =>
    obtain ⟨f, ops⟩ := hd
    unfold someRuleViolated
    cases hctx : ctx f with
    | none =>
      simp only [rulesCheck, hctx]
      constructor
      · intro _
        exact ⟨(f, ops), List.mem_cons_self _ _, Or.inl hctx⟩
      · intro _; trivial
    | some cv =>
      simp only [rulesCheck, hctx, Bool.and_eq_false_iff]
      rw [opsCheck_false_iff_fieldViolated ctx f cv hctx ops, ih]
      unfold someRuleViolated
      constructor
      · rintro (h | ⟨r, hr, hv⟩)
        · exact ⟨(f, ops), List.mem_cons_self _ _, h⟩
        · exact ⟨r, List.mem_cons_of_mem _ hr, hv⟩
      · rintro ⟨r, hr, hv⟩
        rcases List.mem_cons.mp hr with rfl | hr'
        · exact Or.inl hv
        · exact Or.inr ⟨r, hr', hv⟩

/-- C7: context rule matching is a pure conjunction — with the kill switch
and phase gates passed, `evaluateFlag` answers `context_rules_not_matched`
exactly when `matchesContextRules` fails, and `matchesContextRules` fails
exactly when some configured field is absent from the context, some
configured operator is unsatisfied, or some field's rule has zero defined
operands; absent or empty rules pass trivially. -/
theorem evaluateFlag_context_rules_conjunction (now : Int) (flagKey : String)
    (cfg : IEnvironmentConfig) (ctx : EvalContext)
    (hen : cfg.enabled = true)
    (hgate : (phasesNonempty cfg.phases && (findActivePhase now cfg.phases).isNone) = false) :
    (evaluateFlag now flagKey cfg ctx = ⟨false, "context_rules_not_matched", none, none⟩ ↔
      matchesContextRules ctx cfg.contextRules = false) ∧
    (∀ rules, matchesContextRules ctx (some rules) = false ↔ someRuleViolated ctx rules) ∧
    matchesContextRules ctx none = true ∧
    matchesContextRules ctx (some []) = true := by
  refine ⟨?_, fun rules => rulesCheck_eq_false_iff ctx rules, rfl, rfl⟩
  by_cases hm : matchesContextRules ctx cfg.contextRules = true
  · cases hap : findActivePhase now cfg.phases with
    | none =>
      have hpn : phasesNonempty cfg.phases = false := by
        rw [hap] at hgate; simpa using hgate
      have hen' : (evaluateFlag now flagKey cfg ctx).enabled = true := by
        simp [evaluateFlag, hen, hm, hap, hpn]
      refine iff_of_false ?_ (by simp [hm])
      intro h
      rw [h] at hen'
      exact absurd hen' (by decide)
    | some phase =>
      have hph : (evaluateFlag now flagKey cfg ctx).matchedPhase = some phase ∨
          (evaluateFlag now flagKey cfg ctx).reason = "missing_user_id" := by
        by_cases hu : phase.percentage < 100 ∧ ctx "userId" = none
        · right; simp [evaluateFlag, hen, hgate, hm, hap, hu]
        · left; simp [evaluateFlag, hen, hgate, hm, hap, hu]
      refine iff_of_false ?_ (by simp [hm])
      intro h
      rcases hph with hph | hph
      · rw [h] at hph; simp at hph
      · rw [h] at hph; exact absurd hph (by decide)
  · have hm' : matchesContextRules ctx cfg.contextRules = false := by
      revert hm; cases matchesContextRules ctx cfg.contextRules <;> simp
    have hev : evaluateFlag now flagKey cfg ctx =
        ⟨false, "context_rules_not_matched", none, none⟩ := by
      simp [evaluateFlag, hen, hgate, hm']
    exact iff_of_true hev hm'

/-- C7 witness: the spec's own scenario — `contextRules` demanding
`location ∈ {US, EU}` against a context located in `CN` — violates the
rules, and the evaluator says so. -/
theorem evaluateFlag_context_rules_conjunction_witness :
    (evaluateFlag 0 "f"
        (IEnvironmentConfig.mk true none
          (some [("location", [("oneOf",
            some (Operand.arr [JsVal.str "US", JsVal.str "EU"]))])]))
        (fun f => if f = "location" then some (JsVal.str "CN")
          else if f = "userId" then some (JsVal.str "u1") else none) =
      ⟨false, "context_rules_not_matched", none, none⟩ ↔
      matchesContextRules
        (fun f => if f = "location" then some (JsVal.str "CN")
          else if f = "userId" then some (JsVal.str "u1") else none)
        (some [("location", [("oneOf",
          some (Operand.arr [JsVal.str "US", JsVal.str "EU"]))])]) = false) ∧
    (∀ rules, matchesContextRules
        (fun f => if f = "location" then some (JsVal.str "CN")
          else if f = "userId" then some (JsVal.str "u1") else none) (some rules) = false ↔
      someRuleViolated
        (fun f => if f = "location" then some (JsVal.str "CN")
          else if f = "userId" then some (JsVal.str "u1") else none) rules) ∧
    matchesContextRules
      (fun f => if f = "location" then some (JsVal.str "CN")
        else if f = "userId" then some (JsVal.str "u1") else none) none = true ∧
    matchesContextRules
      (fun f => if f = "location" then some (JsVal.str "CN")
        else if f = "userId" then some (JsVal.str "u1") else none) (some []) = true :=
  evaluateFlag_context_rules_conjunction 0 "f"
    (IEnvironmentConfig.mk true none
      (some [("location", [("oneOf", some (Operand.arr [JsVal.str "US", JsVal.str "EU"]))])]))
    (fun f => if f = "location" then some (JsVal.str "CN")
      else if f = "userId" then some (JsVal.str "u1") else none)
    rfl (by decide)

/-- C9: a configuration with absent or empty phases produces the same
enabled verdict as the same configuration carrying one always-active 100%
phase, for every context; only the success reason differs —
`flag_enabled` against `percentage_matched` — and failure reasons agree. -/
theorem evaluateFlag_empty_phases_equiv_full_phase (now : Int) (flagKey : String)
    (cfg cfg2 : IEnvironmentConfig) (ctx : EvalContext) (s : Int)
    (hempty : cfg.phases = none ∨ cfg.phases = some [])
    (hs : s ≤ now)
    (hcfg2 : cfg2 = { cfg with phases := some [IPhase.mk s none 100] }) :
    (evaluateFlag now flagKey cfg ctx).enabled = (evaluateFlag now flagKey cfg2 ctx).enabled ∧
    ((evaluateFlag now flagKey cfg ctx).enabled = true →
      (evaluateFlag now flagKey cfg ctx).reason = "flag_enabled" ∧
      (evaluateFlag now flagKey cfg2 ctx).reason = "percentage_matched") ∧
    ((evaluateFlag now flagKey cfg ctx).enabled = false →
      (evaluateFlag now flagKey cfg ctx).reason = (evaluateFlag now flagKey cfg2 ctx).reason) := by
  subst hcfg2
  have hphase : phaseContains now (IPhase.mk s none 100) = true := by
    simp [phaseContains, hs]
  have hact : findActivePhase now (some [IPhase.mk s none 100]) = some (IPhase.mk s none 100) := by
    simp [findActivePhase, findPhaseLoop, hphase]
  have hbucket : ((calculateBucket (jsDisplay (ctx "userId")) flagKey : Nat) : Int) < 100 := by
    exact_mod_cast calculateBucket_lt_100 (jsDisplay (ctx "userId")) flagKey
  have hemptyA : phasesNonempty cfg.phases = false := by
    rcases hempty with h | h <;> simp [phasesNonempty, h]
  have hactA : findActivePhase now cfg.phases = none := by
    rcases hempty with h | h <;> simp [findActivePhase, h]
  have hpn2 : phasesNonempty (some [IPhase.mk s none 100]) = true := by
    simp [phasesNonempty]
  cases hen : cfg.enabled with
  | false => simp [evaluateFlag, hen]
  | true =>
    by_cases hm : matchesContextRules ctx cfg.contextRules = true
    · simp [evaluateFlag, hen, hemptyA, hactA, hact, hpn2, hm, hbucket]
    · have hm' : matchesContextRules ctx cfg.contextRules = false := by
        revert hm; cases matchesContextRules ctx cfg.contextRules <;> simp
      simp [evaluateFlag, hen, hemptyA, hactA, hact, hpn2, hm']

/-- C9 witness: the trivial configuration with no phases against the
single 100% phase variant at a concrete instant. -/
theorem evaluateFlag_empty_phases_equiv_full_phase_witness :
    (evaluateFlag 0 "k" (IEnvironmentConfig.mk true none none) (fun _ => none)).enabled =
      (evaluateFlag 0 "k"
        (IEnvironmentConfig.mk true (some [IPhase.mk 0 none 100]) none) (fun _ => none)).enabled ∧
    ((evaluateFlag 0 "k" (IEnvironmentConfig.mk true none none) (fun _ => none)).enabled = true →
      (evaluateFlag 0 "k" (IEnvironmentConfig.mk true none none) (fun _ => none)).reason =
        "flag_enabled" ∧
      (evaluateFlag 0 "k"
        (IEnvironmentConfig.mk true (some [IPhase.mk 0 none 100]) none) (fun _ => none)).reason =
        "percentage_matched") ∧
    ((evaluateFlag 0 "k" (IEnvironmentConfig.mk true none none) (fun _ => none)).enabled = false →
      (evaluateFlag 0 "k" (IEnvironmentConfig.mk true none none) (fun _ => none)).reason =
        (evaluateFlag 0 "k"
          (IEnvironmentConfig.mk true (some [IPhase.mk 0 none 100]) none) (fun _ => none)).reason) :=
  evaluateFlag_empty_phases_equiv_full_phase 0 "k" (IEnvironmentConfig.mk true none none)
    (IEnvironmentConfig.mk true (some [IPhase.mk 0 none 100]) none) (fun _ => none) 0
    (Or.inl rfl) (by decide) rfl

/-- C10: with an active 100% phase, a context lacking `userId` is not
rejected with `missing_user_id`; the percentage check still runs, seeding
the bucket with the literal string rendering of the absent value
(`"undefined:{flagKey}"`), and the flag evaluates enabled with
`percentage_matched`; an empty-string `userId` is likewise bucketed from
the seed `":{flagKey}"`. -/
theorem evaluateFlag_full_phase_missing_userId (now : Int) (flagKey : String)
    (cfg : IEnvironmentConfig) (ctx : EvalContext) (phase : IPhase)
    (hen : cfg.enabled = true)
    (hact : findActivePhase now cfg.phases = some phase)
    (hpct : phase.percentage = 100)
    (hrules : matchesContextRules ctx cfg.contextRules = true) :
    (ctx "userId" = none →
      evaluateFlag now flagKey cfg ctx =
        ⟨true, "percentage_matched", some phase, some (calculateBucket "undefined" flagKey)⟩) ∧
    (ctx "userId" = some (JsVal.str "") →
      evaluateFlag now flagKey cfg ctx =
        ⟨true, "percentage_matched", some phase, some (calculateBucket "" flagKey)⟩) ∧
    calculateBucket "undefined" flagKey =
      parseHex ((md5Hex ("undefined:" ++ flagKey)).data.take 8) % 100 ∧
    calculateBucket "" flagKey =
      parseHex ((md5Hex (":" ++ flagKey)).data.take 8) % 100 := by
  have hb100 : ∀ u : String, ((calculateBucket u flagKey : Nat) : Int) < phase.percentage := by
    intro u
    rw [hpct]
    exact_mod_cast calculateBucket_lt_100 u flagKey
  refine ⟨?_, ?_, ?_, ?_⟩
  · intro hu
    simp [evaluateFlag, hen, hact, hpct, hrules, hu, jsDisplay, hb100 "undefined",
      calculateBucket_lt_100]
  · intro hu
    simp [evaluateFlag, hen, hact, hpct, hrules, hu, jsDisplay, hb100 "",
      calculateBucket_lt_100]
  · show parseHex ((md5Hex ("undefined" ++ ":" ++ flagKey)).data.take 8) % 100 = _
    rw [show ("undefined" ++ ":" ++ flagKey : String) = "undefined:" ++ flagKey from by
      rw [show ("undefined:" : String) = "undefined" ++ ":" from rfl, String.append_assoc]]
  · show parseHex ((md5Hex ("" ++ ":" ++ flagKey)).data.take 8) % 100 = _
    rw [show ("" ++ ":" ++ flagKey : String) = ":" ++ flagKey from by
      rw [String.append_assoc]; rfl]

/-- C10 witness: a concrete 100% phase with an empty context — the result
is enabled with `percentage_matched` and the `"undefined"`-seeded bucket. -/
theorem evaluateFlag_full_phase_missing_userId_witness :
    ((fun _ => none : EvalContext) "userId" = none →
      evaluateFlag 5 "k"
          (IEnvironmentConfig.mk true (some [IPhase.mk 0 none 100]) none) (fun _ => none) =
        ⟨true, "percentage_matched", some (IPhase.mk 0 none 100),
          some (calculateBucket "undefined" "k")⟩) ∧
    ((fun _ => none : EvalContext) "userId" = some (JsVal.str "") →
      evaluateFlag 5 "k"
          (IEnvironmentConfig.mk true (some [IPhase.mk 0 none 100]) none) (fun _ => none) =
        ⟨true, "percentage_matched", some (IPhase.mk 0 none 100),
          some (calculateBucket "" "k")⟩) ∧
    calculateBucket "undefined" "k" =
      parseHex ((md5Hex ("undefined:" ++ "k")).data.take 8) % 100 ∧
    calculateBucket "" "k" =
      parseHex ((md5Hex (":" ++ "k")).data.take 8) % 100 :=
  evaluateFlag_full_phase_missing_userId 5 "k"
    (IEnvironmentConfig.mk true (some [IPhase.mk 0 none 100]) none)
    (fun _ => none) (IPhase.mk 0 none 100) rfl (by decide) rfl rfl

/-! ## Multi-tenant isolation lemma stack (C5) -/

theorem append_colon_inj (l1 : List Char) :
    ∀ (l2 r1 r2 : List Char), ':' ∉ l1 → ':' ∉ l2 →
      l1 ++ ':' :: r1 = l2 ++ ':' :: r2 → l1 = l2 ∧ r1 = r2 := by
  induction l1 with
  | nil =>
    intro l2 r1 r2 _ h2 h
    cases l2 with
    | nil => simpa using h
    | cons c t =>
      simp only [List.nil_append, List.cons_append] at h
      injection h with hc _
      exact absurd (hc ▸ List.mem_cons_self c t) h2
  | cons a t ih =>
    intro l2 r1 r2 h1 h2 h
    cases l2 with
    | nil =>
      simp only [List.nil_append, List.cons_append] at h
      injection h with hc _
      exact absurd (hc ▸ List.mem_cons_self a t) h1
    | cons b t2 =>
      simp only [List.cons_append] at h
      injection h with hab htl
      obtain ⟨he, hr⟩ := ih t2 r1 r2
        (fun hm => h1 (List.mem_cons_of_mem a hm))
        (fun hm => h2 (List.mem_cons_of_mem b hm)) htl
      exact ⟨by rw [hab, he], hr⟩

theorem getCacheKey_data (o k : String) :
    (getCacheKey o k).data = o.data ++ ':' :: k.data := by
  show ((o ++ ":") ++ k).data = _
  rw [String.data_append, String.data_append,
    show (":" : String).data = [':'] from rfl]
  simp

theorem getCacheKey_inj (o1 k1 o2 k2 : String) (h1 : validOrg o1) (h2 : validOrg o2)
    (h : getCacheKey o1 k1 = getCacheKey o2 k2) : o1 = o2 ∧ k1 = k2 := by
  have hd := congrArg String.data h
  rw [getCacheKey_data, getCacheKey_data] at hd
  obtain ⟨ho, hk⟩ := append_colon_inj o1.data o2.data k1.data k2.data h1 h2 hd
  exact ⟨String.ext ho, String.ext hk⟩

theorem cacheLookup_mapSet (c : List (String × CFlag)) (k q : String) (v : CFlag) :
    cacheLookup (mapSet c k v) q = if k = q then some v else cacheLookup c q := by
  by_cases h : k = q
  · simp [cacheLookup, mapSet, List.find?_cons, h]
  · have hb : (k == q) = false := by simpa using h
    simp [cacheLookup, mapSet, List.find?_cons, hb, h]

theorem cacheLookup_filterOut (c : List (String × CFlag)) (K q : String) :
    cacheLookup (c.filter (fun e => !(e.1 == K))) q =
      if q = K then none else cacheLookup c q := by
  induction c with
  | nil => by_cases h : q = K <;> simp [cacheLookup, h]
  | cons hd t ih =>
    by_cases hK : hd.1 = K
    · have hb : (!(hd.1 == K)) = false := by simp [hK]
      rw [List.filter_cons, hb, if_neg (by simp), ih]
      by_cases hq : q = K
      · simp [hq]
      · have hne : (hd.1 == q) = false := by
          simp only [beq_eq_false_iff_ne]
          rw [hK]
          exact fun hcon => hq hcon.symm
        simp [hq, cacheLookup, List.find?_cons, hne]
    · have hb : (!(hd.1 == K)) = true := by simp [hK]
      rw [List.filter_cons, hb, if_pos rfl]
      by_cases hdq : hd.1 = q
      · have hbq : (hd.1 == q) = true := by simpa using hdq
        have hqK : ¬ q = K := fun hcon => hK (hdq.trans hcon)
        simp [cacheLookup, List.find?_cons, hbq, hqK]
      · have hbq : (hd.1 == q) = false := by simpa using hdq
        simpa [cacheLookup, List.find?_cons, hbq] using ih

theorem foldl_mapSet_eq (S : List CFlag) :
    ∀ c0 : List (String × CFlag),
      S.foldl (fun c fl => mapSet c (getCacheKey fl.organizationId fl.flagKey) fl) c0 =
        (S.map (fun fl => (getCacheKey fl.organizationId fl.flagKey, fl))).reverse ++ c0 := by
  induction S with
  | nil => intro c0; simp
  | cons fl t ih =>
    intro c0
    rw [List.foldl_cons, ih]
    simp [mapSet]

theorem cacheLookup_loadAllFlags (S : List CFlag) (now : Int) (s : CacheState) (q : String) :
    cacheLookup (loadAllFlags S now s).cache q =
      S.reverse.find? (fun fl => getCacheKey fl.organizationId fl.flagKey == q) := by
  show cacheLookup
      (S.foldl (fun c fl => mapSet c (getCacheKey fl.organizationId fl.flagKey) fl) []) q = _
  rw [foldl_mapSet_eq]
  unfold cacheLookup
  rw [List.append_nil, ← List.map_reverse, List.find?_map, Option.map_map]
  rw [show ((fun (e : String × CFlag) => e.2) ∘
      fun fl => (getCacheKey fl.organizationId fl.flagKey, fl)) = fun fl => fl from rfl]
  rw [show ((fun (e : String × CFlag) => e.1 == q) ∘
      fun fl => (getCacheKey fl.organizationId fl.flagKey, fl)) =
    fun fl => getCacheKey fl.organizationId fl.flagKey == q from rfl]
  simp

theorem find?_eq_find?_filter {α : Type} (l : List α) (p q : α → Bool)
    (h : ∀ x ∈ l, p x = true → q x = true) :
    l.find? p = (l.filter q).find? p := by
  induction l with
  | nil => rfl
  | cons a t ih =>
    have ih' := ih (fun x hx => h x (List.mem_cons_of_mem a hx))
    by_cases hq : q a = true
    · cases hp : p a <;>
        simp [List.filter_cons, hq, List.find?_cons, hp, ih']
    · have hp : p a = false := by
        cases hpa : p a
        · rfl
        · exact absurd (h a (List.mem_cons_self a t) hpa) hq
      simp only [List.filter_cons, hq, if_false, List.find?_cons, hp]
      exact ih'

theorem lookup_loadAllFlags_agree (A : String) (hA : validOrg A) (S1 S2 : List CFlag)
    (h1 : validStore S1) (h2 : validStore S2) (hag : storesAgreeOn A S1 S2)
    (now1 now2 : Int) (s1 s2 : CacheState) (k : String) :
    cacheLookup (loadAllFlags S1 now1 s1).cache (getCacheKey A k) =
      cacheLookup (loadAllFlags S2 now2 s2).cache (getCacheKey A k) := by
  rw [cacheLookup_loadAllFlags, cacheLookup_loadAllFlags]
  have himp : ∀ S : List CFlag, validStore S → ∀ fl ∈ S.reverse,
      (getCacheKey fl.organizationId fl.flagKey == getCacheKey A k) = true →
      (fl.organizationId == A) = true := by
    intro S hS fl hfl hp
    have hmem : fl ∈ S := List.mem_reverse.mp hfl
    have hkey : getCacheKey fl.organizationId fl.flagKey = getCacheKey A k := by
      simpa using hp
    have := getCacheKey_inj fl.organizationId fl.flagKey A k (hS fl hmem) hA hkey
    simpa using this.1
  rw [find?_eq_find?_filter S1.reverse _ (fun fl => fl.organizationId == A) (himp S1 h1),
    find?_eq_find?_filter S2.reverse _ (fun fl => fl.organizationId == A) (himp S2 h2),
    List.filter_reverse, List.filter_reverse, hag]

theorem storeFindOne_agree (A k : String) (S1 S2 : List CFlag)
    (hag : storesAgreeOn A S1 S2) :
    storeFindOne S1 A k = storeFindOne S2 A k := by
  unfold storeFindOne
  have himp : ∀ S : List CFlag, ∀ f ∈ S,
      (f.organizationId == A && f.flagKey == k) = true →
      (f.organizationId == A) = true := by
    intro S f _ hp
    exact (Bool.and_eq_true _ _ |>.mp hp).1
  rw [find?_eq_find?_filter S1 _ (fun f => f.organizationId == A) (himp S1),
    find?_eq_find?_filter S2 _ (fun f => f.organizationId == A) (himp S2), hag]

theorem storeFindOne_fields (S : List CFlag) (o k : String) (fl : CFlag)
    (h : storeFindOne S o k = some fl) :
    fl ∈ S ∧ fl.organizationId = o ∧ fl.flagKey = k := by
  have hp := List.find?_some h
  have hmem := List.mem_of_find?_eq_some h
  obtain ⟨h1, h2⟩ := Bool.and_eq_true _ _ |>.mp hp
  exact ⟨hmem, by simpa using h1, by simpa using h2⟩

theorem wfCache_loadAllFlags (S : List CFlag) (hS : validStore S) (now : Int)
    (s : CacheState) : wfCache (loadAllFlags S now s).cache := by
  show wfCache (S.foldl (fun c fl => mapSet c (getCacheKey fl.organizationId fl.flagKey) fl) [])
  rw [foldl_mapSet_eq]
  intro e he
  rw [List.append_nil, List.mem_reverse, List.mem_map] at he
  obtain ⟨fl, hfl, rfl⟩ := he
  exact ⟨rfl, hS fl hfl⟩

theorem wfCache_checkAndRefresh (S : List CFlag) (hS : validStore S) (now : Int)
    (s : CacheState) (hs : wfCache s.cache) :
    wfCache (checkAndRefresh S now s).cache := by
  unfold checkAndRefresh
  split
  · exact wfCache_loadAllFlags S hS now s
  · exact hs

theorem wfCache_mapSet_self (c : List (String × CFlag)) (hc : wfCache c) (fl : CFlag)
    (hfl : validFlag fl) :
    wfCache (mapSet c (getCacheKey fl.organizationId fl.flagKey) fl) := by
  intro e he
  rcases List.mem_cons.mp he with rfl | he'
  · exact ⟨rfl, hfl⟩
  · exact hc e he'

theorem cacheLookup_wf_safety (c : List (String × CFlag)) (hc : wfCache c) (A k : String)
    (hA : validOrg A) (fl : CFlag)
    (h : cacheLookup c (getCacheKey A k) = some fl) :
    fl.organizationId = A ∧ fl.flagKey = k := by
  unfold cacheLookup at h
  rcases Option.map_eq_some'.mp h with ⟨e, hfind, hsnd⟩
  have hmem := List.mem_of_find?_eq_some hfind
  have hp : (e.1 == getCacheKey A k) = true := by
    have h' := List.find?_some hfind
    exact h'
  obtain ⟨hkey, hval⟩ := hc e hmem
  have hkk : getCacheKey e.2.organizationId e.2.flagKey = getCacheKey A k := by
    rw [← hkey]
    exact eq_of_beq hp
  obtain ⟨ho, hk2⟩ := getCacheKey_inj _ _ _ _ hval hA hkk
  rw [← hsnd]
  exact ⟨ho, hk2⟩

theorem cacheGet_fst_safety (store : List CFlag) (now : Int) (s : CacheState) (A k : String)
    (hS : validStore store) (hc : wfCache s.cache) (hA : validOrg A) (fl : CFlag)
    (h : (cacheGet store now s A k).1 = some fl) :
    fl.organizationId = A ∧ fl.flagKey = k := by
  have hw1 : wfCache (checkAndRefresh store now s).cache :=
    wfCache_checkAndRefresh store hS now s hc
  simp only [cacheGet] at h
  cases hlk : cacheLookup (checkAndRefresh store now s).cache (getCacheKey A k) with
  | some fl2 =>
    rw [hlk] at h
    simp at h
    have := cacheLookup_wf_safety _ hw1 A k hA fl2 hlk
    rwa [h] at this
  | none =>
    rw [hlk] at h
    cases hfo : storeFindOne store A k with
    | some fl2 =>
      rw [hfo] at h
      simp at h
      obtain ⟨_, ho, hk2⟩ := storeFindOne_fields store A k fl2 hfo
      rw [← h]
      exact ⟨ho, hk2⟩
    | none =>
      rw [hfo] at h
      simp at h

theorem wfCache_cacheGet_snd (store : List CFlag) (now : Int) (s : CacheState)
    (orgId flagKey : String) (hS : validStore store) (hc : wfCache s.cache) :
    wfCache (cacheGet store now s orgId flagKey).2.cache := by
  have hw1 : wfCache (checkAndRefresh store now s).cache :=
    wfCache_checkAndRefresh store hS now s hc
  simp only [cacheGet]
  cases hlk : cacheLookup (checkAndRefresh store now s).cache (getCacheKey orgId flagKey) with
  | some fl => exact hw1
  | none =>
    cases hfo : storeFindOne store orgId flagKey with
    | some fl =>
      obtain ⟨hmem, ho, hk⟩ := storeFindOne_fields store orgId flagKey fl hfo
      show wfCache (mapSet (checkAndRefresh store now s).cache (getCacheKey orgId flagKey) fl)
      rw [← ho, ← hk]
      exact wfCache_mapSet_self _ hw1 fl (hS fl hmem)
    | none => exact hw1

theorem wfCache_applyOp (s : CacheState) (op : CacheOp) (hop : validOp op)
    (hs : wfCache s.cache) : wfCache (applyOp s op).cache := by
  cases op with
  | load store now => exact wfCache_loadAllFlags store hop now s
  | opGet store now orgId flagKey =>
    exact wfCache_cacheGet_snd store now s orgId flagKey hop.1 hs
  | opSet fl => exact wfCache_mapSet_self s.cache hs fl hop
  | opDelete orgId flagKey =>
    intro e he
    exact hs e (List.mem_of_mem_filter he)

theorem wfCache_foldl (ops : List CacheOp) :
    ∀ s : CacheState, (∀ op ∈ ops, validOp op) → wfCache s.cache →
      wfCache (ops.foldl applyOp s).cache := by
  induction ops with
  | nil => intro s _ hs; exact hs
  | cons op t ih =>
    intro s h hs
    rw [List.foldl_cons]
    exact ih _ (fun o ho => h o (List.mem_cons_of_mem _ ho))
      (wfCache_applyOp s op (h op (List.mem_cons_self _ _)) hs)

theorem wfCache_runOps (ops : List CacheOp) (h : ∀ op ∈ ops, validOp op) :
    wfCache (runOps initialCacheState ops).cache :=
  wfCache_foldl ops initialCacheState h (fun e he => absurd he (List.not_mem_nil e))

theorem agree_checkAndRefresh (A : String) (hA : validOrg A) (store1 store2 : List CFlag)
    (h1 : validStore store1) (h2 : validStore store2) (hag : storesAgreeOn A store1 store2)
    (now : Int) (s1 s2 : CacheState) (hst : statesAgreeOn A s1 s2) :
    statesAgreeOn A (checkAndRefresh store1 now s1) (checkAndRefresh store2 now s2) := by
  unfold checkAndRefresh
  rw [← hst.2]
  by_cases hc : now - s1.lastRefreshTime > TTL_MS
  · rw [if_pos hc, if_pos hc]
    exact ⟨fun k => lookup_loadAllFlags_agree A hA store1 store2 h1 h2 hag now now s1 s2 k, rfl⟩
  · rw [if_neg hc, if_neg hc]
    exact hst

theorem cacheGet_snd_lookupA (store : List CFlag) (now : Int) (s : CacheState)
    (o k A : String) (ho : validOrg o) (hA : validOrg A) (hne : o ≠ A) :
    (∀ k', cacheLookup (cacheGet store now s o k).2.cache (getCacheKey A k') =
      cacheLookup (checkAndRefresh store now s).cache (getCacheKey A k')) ∧
    (cacheGet store now s o k).2.lastRefreshTime =
      (checkAndRefresh store now s).lastRefreshTime := by
  simp only [cacheGet]
  cases hlk : cacheLookup (checkAndRefresh store now s).cache (getCacheKey o k) with
  | some fl => exact ⟨fun k' => rfl, rfl⟩
  | none =>
    cases hfo : storeFindOne store o k with
    | some fl =>
      refine ⟨fun k' => ?_, rfl⟩
      show cacheLookup
        (mapSet (checkAndRefresh store now s).cache (getCacheKey o k) fl) _ = _
      rw [cacheLookup_mapSet, if_neg]
      intro hcon
      exact hne (getCacheKey_inj o k A k' ho hA hcon).1
    | none => exact ⟨fun k' => rfl, rfl⟩

theorem cacheGet_A_agree (A k : String) (hA : validOrg A) (store1 store2 : List CFlag)
    (hS1 : validStore store1) (hS2 : validStore store2) (hag : storesAgreeOn A store1 store2)
    (now : Int) (s1 s2 : CacheState) (hst : statesAgreeOn A s1 s2) :
    (cacheGet store1 now s1 A k).1 = (cacheGet store2 now s2 A k).1 ∧
    statesAgreeOn A (cacheGet store1 now s1 A k).2 (cacheGet store2 now s2 A k).2 := by
  have hst' := agree_checkAndRefresh A hA store1 store2 hS1 hS2 hag now s1 s2 hst
  have hlkeq : cacheLookup (checkAndRefresh store1 now s1).cache (getCacheKey A k) =
      cacheLookup (checkAndRefresh store2 now s2).cache (getCacheKey A k) := hst'.1 k
  simp only [cacheGet]
  cases hlk : cacheLookup (checkAndRefresh store1 now s1).cache (getCacheKey A k) with
  | some fl =>
    rw [hlk] at hlkeq
    rw [← hlkeq]
    exact ⟨rfl, hst'⟩
  | none =>
    rw [hlk] at hlkeq
    rw [← hlkeq]
    cases hfo : storeFindOne store1 A k with
    | some fl =>
      have hfo2 : storeFindOne store2 A k = some fl := by
        rw [← storeFindOne_agree A k store1 store2 hag]
        exact hfo
      rw [hfo2]
      refine ⟨rfl, fun k' => ?_, hst'.2⟩
      show cacheLookup (mapSet (checkAndRefresh store1 now s1).cache (getCacheKey A k) fl) _ =
        cacheLookup (mapSet (checkAndRefresh store2 now s2).cache (getCacheKey A k) fl) _
      rw [cacheLookup_mapSet, cacheLookup_mapSet]
      by_cases hk : getCacheKey A k = getCacheKey A k'
      · rw [if_pos hk, if_pos hk]
      · rw [if_neg hk, if_neg hk]
        exact hst'.1 k'
    | none =>
      have hfo2 : storeFindOne store2 A k = none := by
        rw [← storeFindOne_agree A k store1 store2 hag]
        exact hfo
      rw [hfo2]
      exact ⟨rfl, hst'⟩

theorem agree_cacheSet_eq (A : String) (fl : CFlag) (s1 s2 : CacheState)
    (hst : statesAgreeOn A s1 s2) :
    statesAgreeOn A (cacheSet fl.organizationId fl.flagKey fl s1)
      (cacheSet fl.organizationId fl.flagKey fl s2) := by
  refine ⟨fun k' => ?_, hst.2⟩
  show cacheLookup (mapSet s1.cache _ fl) _ = cacheLookup (mapSet s2.cache _ fl) _
  rw [cacheLookup_mapSet, cacheLookup_mapSet]
  by_cases hk : getCacheKey fl.organizationId fl.flagKey = getCacheKey A k'
  · rw [if_pos hk, if_pos hk]
  · rw [if_neg hk, if_neg hk]
    exact hst.1 k'

theorem agree_cacheSet_nonA (A : String) (hA : validOrg A) (fl : CFlag) (hfl : validFlag fl)
    (hne : fl.organizationId ≠ A) (s : CacheState) (k' : String) :
    cacheLookup (cacheSet fl.organizationId fl.flagKey fl s).cache (getCacheKey A k') =
      cacheLookup s.cache (getCacheKey A k') := by
  show cacheLookup (mapSet s.cache _ fl) _ = _
  rw [cacheLookup_mapSet, if_neg]
  intro hcon
  exact hne (getCacheKey_inj _ _ _ _ hfl hA hcon).1

theorem agree_cacheDelete_nonA (A : String) (hA : validOrg A) (o k : String) (ho : validOrg o)
    (hne : o ≠ A) (s : CacheState) (k' : String) :
    cacheLookup (cacheDelete o k s).cache (getCacheKey A k') =
      cacheLookup s.cache (getCacheKey A k') := by
  show cacheLookup (s.cache.filter _) _ = _
  rw [cacheLookup_filterOut, if_neg]
  intro hcon
  exact hne ((getCacheKey_inj A k' o k hA ho hcon).1).symm

theorem agree_applyOp (A : String) (hA : validOrg A) (s1 s2 : CacheState)
    (op1 op2 : CacheOp) (h1 : validOp op1) (h2 : validOp op2)
    (hag : statesAgreeOn A s1 s2) (hop : opsAgreeOn A op1 op2) :
    statesAgreeOn A (applyOp s1 op1) (applyOp s2 op2) := by
  cases op1 with
  | load S1 n1 =>
    cases op2 with
    | load S2 n2 =>
      obtain ⟨hS, hn⟩ := hop
      subst hn
      exact ⟨fun k => lookup_loadAllFlags_agree A hA S1 S2 h1 h2 hS n1 n1 s1 s2 k, rfl⟩
    | opGet S2 n2 o2 k2 => exact hop.elim
    | opSet f2 => exact hop.elim
    | opDelete o2 k2 => exact hop.elim
  | opGet S1 n1 o1 k1 =>
    cases op2 with
    | load S2 n2 => exact hop.elim
    | opGet S2 n2 o2 k2 =>
      obtain ⟨hS, hn, ho, hk⟩ := hop
      subst hn; subst ho; subst hk
      by_cases hoA : o1 = A
      · subst hoA
        exact (cacheGet_A_agree o1 k1 hA S1 S2 h1.1 h2.1 hS n1 s1 s2 hag).2
      · obtain ⟨hl1, ht1⟩ := cacheGet_snd_lookupA S1 n1 s1 o1 k1 A h1.2 hA hoA
        obtain ⟨hl2, ht2⟩ := cacheGet_snd_lookupA S2 n1 s2 o1 k1 A h2.2 hA hoA
        have hcr := agree_checkAndRefresh A hA S1 S2 h1.1 h2.1 hS n1 s1 s2 hag
        refine ⟨fun k' => ?_, ?_⟩
        · show cacheLookup (cacheGet S1 n1 s1 o1 k1).2.cache (getCacheKey A k') =
            cacheLookup (cacheGet S2 n1 s2 o1 k1).2.cache (getCacheKey A k')
          rw [hl1 k', hl2 k']
          exact hcr.1 k'
        · show (cacheGet S1 n1 s1 o1 k1).2.lastRefreshTime =
            (cacheGet S2 n1 s2 o1 k1).2.lastRefreshTime
          rw [ht1, ht2]
          exact hcr.2
    | opSet f2 => exact hop.elim
    | opDelete o2 k2 => exact hop.elim
  | opSet f1 =>
    cases op2 with
    | load S2 n2 => exact hop.elim
    | opGet S2 n2 o2 k2 => exact hop.elim
    | opSet f2 =>
      rcases hop with rfl | ⟨hne1, hne2⟩
      · exact agree_cacheSet_eq A f1 s1 s2 hag
      · refine ⟨fun k' => ?_, hag.2⟩
        show cacheLookup (cacheSet f1.organizationId f1.flagKey f1 s1).cache (getCacheKey A k') =
          cacheLookup (cacheSet f2.organizationId f2.flagKey f2 s2).cache (getCacheKey A k')
        rw [agree_cacheSet_nonA A hA f1 h1 hne1 s1 k',
          agree_cacheSet_nonA A hA f2 h2 hne2 s2 k']
        exact hag.1 k'
    | opDelete o2 k2 => exact hop.elim
  | opDelete o1 k1 =>
    cases op2 with
    | load S2 n2 => exact hop.elim
    | opGet S2 n2 o2 k2 => exact hop.elim
    | opSet f2 => exact hop.elim
    | opDelete o2 k2 =>
      rcases hop with ⟨rfl, rfl⟩ | ⟨hne1, hne2⟩
      · refine ⟨fun k' => ?_, hag.2⟩
        show cacheLookup (s1.cache.filter _) _ = cacheLookup (s2.cache.filter _) _
        rw [cacheLookup_filterOut, cacheLookup_filterOut]
        by_cases hq : getCacheKey A k' = getCacheKey o1 k1
        · rw [if_pos hq, if_pos hq]
        · rw [if_neg hq, if_neg hq]
          exact hag.1 k'
      · refine ⟨fun k' => ?_, hag.2⟩
        show cacheLookup (cacheDelete o1 k1 s1).cache (getCacheKey A k') =
          cacheLookup (cacheDelete o2 k2 s2).cache (getCacheKey A k')
        rw [agree_cacheDelete_nonA A hA o1 k1 h1 hne1 s1 k',
          agree_cacheDelete_nonA A hA o2 k2 h2 hne2 s2 k']
        exact hag.1 k'

theorem agree_foldl (A : String) (hA : validOrg A) (ops1 ops2 : List CacheOp)
    (hf : List.Forall₂ (opsAgreeOn A) ops1 ops2) :
    (∀ op ∈ ops1, validOp op) → (∀ op ∈ ops2, validOp op) →
    ∀ s1 s2 : CacheState, statesAgreeOn A s1 s2 →
      statesAgreeOn A (ops1.foldl applyOp s1) (ops2.foldl applyOp s2) := by
  induction hf with
  | nil => intro _ _ s1 s2 h; exact h
  | @cons a b l1 l2 hop hf2 ih =>
    intro hv1 hv2 s1 s2 hst
    rw [List.foldl_cons, List.foldl_cons]
    exact ih (fun o ho => hv1 o (List.mem_cons_of_mem _ ho))
      (fun o ho => hv2 o (List.mem_cons_of_mem _ ho)) _ _
      (agree_applyOp A hA s1 s2 a b (hv1 a (List.mem_cons_self _ _))
        (hv2 b (List.mem_cons_self _ _)) hst hop)

theorem evaluateFlagsController_fst (store : List CFlag) (now : Int) (s : CacheState)
    (orgId env flagKey : String) (ctx : EvalContext) :
    (evaluateFlagsController store now s orgId env flagKey ctx).1 =
      (match (cacheGet store now s orgId flagKey).1 with
       | none => (⟨false, "flag_not_found", none, none⟩ : EvaluationResult)
       | some fl =>
         match envLookup env fl.environments with
         | none => ⟨false, "environment_not_configured", none, none⟩
         | some envConfig => evaluateFlag now flagKey envConfig ctx) := by
  unfold evaluateFlagsController
  rcases hg : cacheGet store now s orgId flagKey with ⟨r, st⟩
  cases r with
  | none => rfl
  | some fl =>
    show (match envLookup env fl.environments with
      | none => ((⟨false, "environment_not_configured", none, none⟩ : EvaluationResult), st)
      | some envConfig => (evaluateFlag now flagKey envConfig ctx, st)).1 =
      match envLookup env fl.environments with
      | none => (⟨false, "environment_not_configured", none, none⟩ : EvaluationResult)
      | some envConfig => evaluateFlag now flagKey envConfig ctx
    cases he : envLookup env fl.environments <;> rfl

/-- C5: cache lookups are keyed by the (organization id, flag key) pair.
Along every run of loads, gets, sets and deletes, a `get` for organization
`A` only ever returns a document whose identity is exactly `(A, flagKey)`
— never another organization's document — and two runs whose operations
and stores differ only in other organizations' flags produce the same
`get(A, flagKey)` answer and the same controller evaluation for `A`. -/
theorem cache_multi_tenant_isolation
    (A flagKey env : String) (ctx : EvalContext) (hA : validOrg A)
    (ops1 ops2 : List CacheOp) (store1 store2 : List CFlag) (now : Int)
    (hv1 : ∀ op ∈ ops1, validOp op) (hv2 : ∀ op ∈ ops2, validOp op)
    (hS1 : validStore store1) (hS2 : validStore store2)
    (hops : List.Forall₂ (opsAgreeOn A) ops1 ops2)
    (hstores : storesAgreeOn A store1 store2) :
    (∀ fl : CFlag,
      (cacheGet store1 now (runOps initialCacheState ops1) A flagKey).1 = some fl →
      fl.organizationId = A ∧ fl.flagKey = flagKey) ∧
    (cacheGet store1 now (runOps initialCacheState ops1) A flagKey).1 =
      (cacheGet store2 now (runOps initialCacheState ops2) A flagKey).1 ∧
    (evaluateFlagsController store1 now (runOps initialCacheState ops1) A env flagKey ctx).1 =
      (evaluateFlagsController store2 now (runOps initialCacheState ops2) A env flagKey ctx).1 := by
  have hwf1 : wfCache (runOps initialCacheState ops1).cache := wfCache_runOps ops1 hv1
  have hagree : statesAgreeOn A (runOps initialCacheState ops1) (runOps initialCacheState ops2) :=
    agree_foldl A hA ops1 ops2 hops hv1 hv2 initialCacheState initialCacheState
      ⟨fun k => rfl, rfl⟩
  have hget := cacheGet_A_agree A flagKey hA store1 store2 hS1 hS2 hstores now _ _ hagree
  refine ⟨?_, hget.1, ?_⟩
  · intro fl h
    exact cacheGet_fst_safety store1 now _ A flagKey hS1 hwf1 hA fl h
  · rw [evaluateFlagsController_fst, evaluateFlagsController_fst, hget.1]

/-- C5 witness: organizations `"a"` and `"b"` both define flag key `"x"`;
with `"b"`'s document present in only one store, the `get` and evaluation
for `"a"` coincide across the two runs and only `"a"`-owned documents are
returned. -/
theorem cache_multi_tenant_isolation_witness :
    (∀ fl : CFlag,
      (cacheGet [CFlag.mk "a" "x" []] 70000 (runOps initialCacheState []) "a" "x").1 =
        some fl →
      fl.organizationId = "a" ∧ fl.flagKey = "x") ∧
    (cacheGet [CFlag.mk "a" "x" []] 70000 (runOps initialCacheState []) "a" "x").1 =
      (cacheGet [CFlag.mk "a" "x" [], CFlag.mk "b" "x" []] 70000
        (runOps initialCacheState []) "a" "x").1 ∧
    (evaluateFlagsController [CFlag.mk "a" "x" []] 70000 (runOps initialCacheState [])
        "a" "production" "x" (fun _ => none)).1 =
      (evaluateFlagsController [CFlag.mk "a" "x" [], CFlag.mk "b" "x" []] 70000
        (runOps initialCacheState []) "a" "production" "x" (fun _ => none)).1 :=
  cache_multi_tenant_isolation "a" "x" "production" (fun _ => none) (by decide)
    [] [] [CFlag.mk "a" "x" []] [CFlag.mk "a" "x" [], CFlag.mk "b" "x" []] 70000
    (fun op hop => absurd hop (List.not_mem_nil op))
    (fun op hop => absurd hop (List.not_mem_nil op))
    (by intro fl hfl; fin_cases hfl; all_goals (show validOrg _; decide))
    (by intro fl hfl; fin_cases hfl; all_goals (show validOrg _; decide))
    List.Forall₂.nil (by unfold storesAgreeOn; decide)

end FlipFlap

